import Mathlib

/-!
Shallow embedding of the cascaded multirotor flight controller in
`src/controller.py` (class `NonlinearController` plus the module-level
constants and `normalize_angle`).  Python floats are modelled as real
numbers; `numpy` arrays as functions out of `Fin n`; `np.clip` as
`clip`; Python's `%` on reals as `pymod`; `np.argmin` as `ind_min`;
Python list indexing (including negative-index wraparound) as `pyIdx` /
`pyGetS` / `pyGetV`.
-/

noncomputable section

open Real

/-- Constant `DRONE_MASS_KG = 0.5` from `src/controller.py`. -/
def DRONE_MASS_KG : ℝ := 0.5

/-- Constant `GRAVITY = -9.81` from `src/controller.py`. -/
def GRAVITY : ℝ := -9.81

/-- Constant `MOI = np.array([0.005, 0.005, 0.01])` from `src/controller.py`. -/
def MOI : Fin 3 → ℝ := ![0.005, 0.005, 0.01]

/-- Constant `MAX_THRUST = 10.0` from `src/controller.py`. -/
def MAX_THRUST : ℝ := 10.0

/-- Constant `MAX_TORQUE = 1.0` from `src/controller.py`. -/
def MAX_TORQUE : ℝ := 1.0

/-- Constant `EPSILON = 1.0E-4` from `src/controller.py`. -/
def EPSILON : ℝ := 1.0E-4

/-- Constant `MAX_TILT = 1.0` from `src/controller.py`. -/
def MAX_TILT : ℝ := 1.0

/-- The clamp `np.clip(x, lo, hi)`: clamp `x` into `[lo, hi]`. -/
def clip (x lo hi : ℝ) : ℝ := min (max x lo) hi

/-- The `PDController` class of `src/controller.py`: a proportional gain
and a derivative gain, fixed at construction. -/
structure PDController where
  k_p : ℝ
  k_d : ℝ

/-- The method `PDController.control(error, error_dot, feed_forward)`. -/
def PDController.control (c : PDController) (error error_dot feed_forward : ℝ) : ℝ :=
  c.k_p * error + c.k_d * error_dot + feed_forward

/-- The `PController` subclass: a `PDController` with `k_d = 0`. -/
def PController (k_p : ℝ) : PDController := ⟨k_p, 0⟩

/-- The method `PController.control(error)`: the PD law restricted to
`error_dot = 0`, `feed_forward = 0`. -/
def PDController.pcontrol (c : PDController) (error : ℝ) : ℝ :=
  c.control error 0 0

/-- Python's `%` for a real left operand and real modulus: the result
has the sign of the divisor, `a % b = a - b * floor(a / b)`. -/
def pymod (a b : ℝ) : ℝ := a - b * ⌊a / b⌋

/-- Function `normalize_angle(x)` from `src/controller.py`:
`x = (x + np.pi) % (2.0*np.pi)`, add `2π` if the result is negative,
then subtract `π`. -/
def normalize_angle (x : ℝ) : ℝ :=
  let y := pymod (x + π) (2 * π)
  (if y < 0 then y + 2 * π else y) - π

/-- Modelled from the spec: the rotation-matrix provider
`euler2RM(roll, pitch, yaw)` lives in the external `frame_utils`
module, not in `src/`.  The spec fixes its convention: the matrix maps
body frame to world frame, `R[2][2]` is the cosine of the combined
tilt (`cos roll * cos pitch`), and `R[0][2]`, `R[1][2]` are the
world-frame components of the body z-axis tilt — i.e. the standard
Z-Y-X (yaw-pitch-roll) rotation matrix `Rz(yaw) Ry(pitch) Rx(roll)`. -/
def euler2RM (roll pitch yaw : ℝ) : Fin 3 → Fin 3 → ℝ := fun i j =>
  match i, j with
  | 0, 0 => cos yaw * cos pitch
  | 0, 1 => cos yaw * sin pitch * sin roll - sin yaw * cos roll
  | 0, 2 => cos yaw * sin pitch * cos roll + sin yaw * sin roll
  | 1, 0 => sin yaw * cos pitch
  | 1, 1 => sin yaw * sin pitch * sin roll + cos yaw * cos roll
  | 1, 2 => sin yaw * sin pitch * cos roll - cos yaw * sin roll
  | 2, 0 => -sin pitch
  | 2, 1 => cos pitch * sin roll
  | 2, 2 => cos pitch * cos roll

/-- Gain instance `self.altitude_controller_ = PDController(k_p=8.0, k_d=4.0)`. -/
def altitude_controller_ : PDController := ⟨8.0, 4.0⟩

/-- Gain instance `self.yaw_controller_ = PController(k_p=5.5)`. -/
def yaw_controller_ : PDController := PController 5.5

/-- Gain instance `pq_controller = PController(k_p=20.0)`, aliased as
`self.p_controller_` and `self.q_controller_`. -/
def p_controller_ : PDController := PController 20.0

/-- Alias `self.q_controller_`: the same gain object as `p_controller_`. -/
def q_controller_ : PDController := p_controller_

/-- Gain instance `self.r_controller_ = PController(k_p=7.5)`. -/
def r_controller_ : PDController := PController 7.5

/-- Gain instance `roll_pitch_controller = PController(k_p=8.0)`, aliased as
`self.roll_controller_` and `self.pitch_controller_`. -/
def roll_controller_ : PDController := PController 8.0

/-- Alias `self.pitch_controller_`: the same gain object as
`roll_controller_`. -/
def pitch_controller_ : PDController := roll_controller_

/-- Gain instance `xy_controller = PDController(k_p=5.0, k_d=4.0)`, aliased as
`self.x_controller_` and `self.y_controller_`. -/
def x_controller_ : PDController := ⟨5.0, 4.0⟩

/-- Alias `self.y_controller_`: the same gain object as `x_controller_`. -/
def y_controller_ : PDController := x_controller_

/-- Method `lateral_position_control` from `src/controller.py`: per-axis PD
law on position and velocity error with feed-forward acceleration. -/
def lateral_position_control (local_position_cmd local_velocity_cmd local_position
    local_velocity acceleration_ff : Fin 2 → ℝ) : Fin 2 → ℝ :=
  ![x_controller_.control (local_position_cmd 0 - local_position 0)
      (local_velocity_cmd 0 - local_velocity 0) (acceleration_ff 0),
    y_controller_.control (local_position_cmd 1 - local_position 1)
      (local_velocity_cmd 1 - local_velocity 1) (acceleration_ff 1)]

/-- Method `altitude_control` from `src/controller.py`.  `attitude` is the
`(roll, pitch, yaw)` triple passed to `euler2RM`; `b_z = R[2][2]`.
If `|b_z| > EPSILON` the PD+feed-forward vertical acceleration is
converted to thrust and clamped into `[0, MAX_THRUST]`; otherwise the
initial `thrust = 0.0` is returned unchanged. -/
def altitude_control (altitude_cmd vertical_velocity_cmd altitude vertical_velocity : ℝ)
    (attitude : Fin 3 → ℝ) (acceleration_ff : ℝ) : ℝ :=
  let R := euler2RM (attitude 0) (attitude 1) (attitude 2)
  let b_z := R 2 2
  if |b_z| > EPSILON then
    let error_z := altitude_cmd - altitude
    let error_z_dot := vertical_velocity_cmd - vertical_velocity
    let u_1_bar := altitude_controller_.control error_z error_z_dot acceleration_ff
    clip (DRONE_MASS_KG * u_1_bar / b_z) 0 MAX_THRUST
  else 0

/-- Method `roll_pitch_controller` from `src/controller.py`.  Guarded on
`|thrust_cmd| > EPSILON` and `|R[2][2]| > EPSILON`; otherwise the
initial `[0, 0]` is returned.  In the live branch the commanded tilt
components are clamped into `[-MAX_TILT, MAX_TILT]`, a P law is applied
to the tilt errors, and the result is mixed through
`M = [[R10, -R00], [R11, -R01]]` scaled by `1 / R[2][2]`. -/
def roll_pitch_controller (acceleration_cmd : Fin 2 → ℝ) (attitude : Fin 3 → ℝ)
    (thrust_cmd : ℝ) : Fin 2 → ℝ :=
  if |thrust_cmd| > EPSILON then
    let R := euler2RM (attitude 0) (attitude 1) (attitude 2)
    if |R 2 2| > EPSILON then
      let b_a_x := R 0 2
      let b_a_y := R 1 2
      let b_c_x := clip (acceleration_cmd 0 / (-thrust_cmd / DRONE_MASS_KG)) (-MAX_TILT) MAX_TILT
      let b_c_y := clip (acceleration_cmd 1 / (-thrust_cmd / DRONE_MASS_KG)) (-MAX_TILT) MAX_TILT
      let b_c_x_dot := roll_controller_.pcontrol (b_c_x - b_a_x)
      let b_c_y_dot := pitch_controller_.pcontrol (b_c_y - b_a_y)
      ![1 / R 2 2 * (R 1 0 * b_c_x_dot + -(R 0 0) * b_c_y_dot),
        1 / R 2 2 * (R 1 1 * b_c_x_dot + -(R 0 1) * b_c_y_dot)]
    else ![0, 0]
  else ![0, 0]

/-- Method `body_rate_control` from `src/controller.py`: per-axis
inertia-scaled P law on the body-rate error, each axis clamped
independently into `[-MAX_TORQUE, MAX_TORQUE]`. -/
def body_rate_control (body_rate_cmd body_rate : Fin 3 → ℝ) : Fin 3 → ℝ := fun i =>
  match i with
  | 0 => clip (MOI 0 * p_controller_.pcontrol (body_rate_cmd 0 - body_rate 0))
      (-MAX_TORQUE) MAX_TORQUE
  | 1 => clip (MOI 1 * q_controller_.pcontrol (body_rate_cmd 1 - body_rate 1))
      (-MAX_TORQUE) MAX_TORQUE
  | 2 => clip (MOI 2 * r_controller_.pcontrol (body_rate_cmd 2 - body_rate 2))
      (-MAX_TORQUE) MAX_TORQUE

/-- Method `yaw_control` from `src/controller.py`: P law on the wrapped yaw
error. -/
def yaw_control (yaw_cmd yaw : ℝ) : ℝ :=
  yaw_controller_.pcontrol (normalize_angle (yaw_cmd - yaw))

/-- Accumulator loop of `np.argmin`: scan the remaining distances
`|a - t|`, keeping the index of the first strict minimum seen so far. -/
def argminAux (t : ℝ) : List ℝ → ℕ → ℕ → ℝ → ℕ
  | [], _, best, _ => best
  | a :: as, i, best, bestVal =>
    if |a - t| < bestVal then argminAux t as (i + 1) i |a - t|
    else argminAux t as (i + 1) best bestVal

/-- The index `np.argmin(np.abs(np.array(time_trajectory) - current_time))`: the
first index whose timestamp is closest (by absolute difference) to
`current_time`. -/
def ind_min (times : List ℝ) (t : ℝ) : ℕ :=
  match times with
  | [] => 0
  | a :: as => argminAux t as 1 0 |a - t|

/-- Python list indexing: a negative index `i` (with `-len ≤ i`) counts
from the end of a list of length `len`. -/
def pyIdx (len : ℕ) (i : ℤ) : ℕ := (if i < 0 then i + len else i).toNat

/-- Python indexing into a list of scalars. -/
def pyGetS (l : List ℝ) (i : ℤ) : ℝ := l.getD (pyIdx l.length i) 0

/-- Python indexing into a list of 3-vectors. -/
def pyGetV (l : List (Fin 3 → ℝ)) (i : ℤ) : Fin 3 → ℝ :=
  l.getD (pyIdx l.length i) (fun _ => 0)

/-- Method `trajectory_control` from `src/controller.py`.  Finds the index
`ind_min` whose timestamp is closest to `current_time`, selects the
interpolation endpoints `(position0, position1, time0, time1)` and the
yaw command by the three branches of the source, then forms the
interpolated position command and the slope velocity command.  Indexing
with `ind_min - 1` uses Python semantics (`pyGetS` / `pyGetV`), so at
`ind_min = 0` it wraps around to the last element. -/
def trajectory_control (position_trajectory : List (Fin 3 → ℝ)) (yaw_trajectory : List ℝ)
    (time_trajectory : List ℝ) (current_time : ℝ) : (Fin 3 → ℝ) × (Fin 3 → ℝ) × ℝ :=
  let n := ind_min time_trajectory current_time
  let time_ref := time_trajectory.getD n 0
  let sel : (Fin 3 → ℝ) × (Fin 3 → ℝ) × ℝ × ℝ × ℝ :=
    if current_time < time_ref then
      (pyGetV position_trajectory ((n : ℤ) - 1), pyGetV position_trajectory (n : ℤ),
       pyGetS time_trajectory ((n : ℤ) - 1), time_trajectory.getD n 0,
       pyGetS yaw_trajectory ((n : ℤ) - 1))
    else
      if position_trajectory.length - 1 ≤ n then
        (position_trajectory.getD n (fun _ => 0), position_trajectory.getD n (fun _ => 0),
         (0 : ℝ), (1 : ℝ), yaw_trajectory.getD n 0)
      else
        (position_trajectory.getD n (fun _ => 0), position_trajectory.getD (n + 1) (fun _ => 0),
         time_trajectory.getD n 0, time_trajectory.getD (n + 1) 0, yaw_trajectory.getD n 0)
  let position0 := sel.1
  let position1 := sel.2.1
  let time0 := sel.2.2.1
  let time1 := sel.2.2.2.1
  let yaw_cmd := sel.2.2.2.2
  (fun j => (position1 j - position0 j) * (current_time - time0) / (time1 - time0) + position0 j,
   fun j => (position1 j - position0 j) / (time1 - time0),
   yaw_cmd)

/-! ## Helper lemmas -/

theorem clip_mem_Icc (x : ℝ) {lo hi : ℝ} (h : lo ≤ hi) : clip x lo hi ∈ Set.Icc lo hi :=
  ⟨le_min (le_max_right x lo) h, min_le_right _ _⟩

theorem abs_clip_le {x c : ℝ} (hc : 0 ≤ c) : |clip x (-c) c| ≤ c := by
  rcases clip_mem_Icc x (neg_le_self hc) with ⟨h1, h2⟩
  exact abs_le.2 ⟨h1, h2⟩

theorem euler2RM_00 (roll pitch yaw : ℝ) : euler2RM roll pitch yaw 0 0 = cos yaw * cos pitch := rfl

theorem euler2RM_01 (roll pitch yaw : ℝ) :
    euler2RM roll pitch yaw 0 1 = cos yaw * sin pitch * sin roll - sin yaw * cos roll := rfl

theorem euler2RM_02 (roll pitch yaw : ℝ) :
    euler2RM roll pitch yaw 0 2 = cos yaw * sin pitch * cos roll + sin yaw * sin roll := rfl

theorem euler2RM_10 (roll pitch yaw : ℝ) : euler2RM roll pitch yaw 1 0 = sin yaw * cos pitch := rfl

theorem euler2RM_11 (roll pitch yaw : ℝ) :
    euler2RM roll pitch yaw 1 1 = sin yaw * sin pitch * sin roll + cos yaw * cos roll := rfl

theorem euler2RM_12 (roll pitch yaw : ℝ) :
    euler2RM roll pitch yaw 1 2 = sin yaw * sin pitch * cos roll - cos yaw * sin roll := rfl

theorem euler2RM_22 (roll pitch yaw : ℝ) : euler2RM roll pitch yaw 2 2 = cos pitch * cos roll := rfl

/-! ## Claim theorems -/

/-- C4: for every `body_rate_cmd` and `body_rate` vector, including
arbitrarily large rate errors, each of the three moments returned by
`body_rate_control` lies in `[-MAX_TORQUE, MAX_TORQUE]` (each axis
clamped independently). -/
theorem body_rate_moments_bounded (body_rate_cmd body_rate : Fin 3 → ℝ) (i : Fin 3) :
    body_rate_control body_rate_cmd body_rate i ∈ Set.Icc (-MAX_TORQUE) MAX_TORQUE := by
  have h : -MAX_TORQUE ≤ MAX_TORQUE := by norm_num [MAX_TORQUE]
  fin_cases i <;> exact clip_mem_Icc _ h

/-- C1: for every finite input, `altitude_control` returns a thrust in
`[0, MAX_THRUST]`; whenever `|b_z| = |R[2][2]| ≤ EPSILON` (including
`b_z = 0`) it returns exactly `0`, taking the guarded branch that never
divides by `b_z`. -/
theorem altitude_thrust_bounded (altitude_cmd vertical_velocity_cmd altitude
    vertical_velocity : ℝ) (attitude : Fin 3 → ℝ) (acceleration_ff : ℝ) :
    altitude_control altitude_cmd vertical_velocity_cmd altitude vertical_velocity
      attitude acceleration_ff ∈ Set.Icc 0 MAX_THRUST ∧
    (|euler2RM (attitude 0) (attitude 1) (attitude 2) 2 2| ≤ EPSILON →
      altitude_control altitude_cmd vertical_velocity_cmd altitude vertical_velocity
        attitude acceleration_ff = 0) := by
  simp only [altitude_control]
  split_ifs with h
  · exact ⟨clip_mem_Icc _ (by norm_num [MAX_THRUST]), fun hle => absurd h (not_lt.2 hle)⟩
  · exact ⟨⟨le_refl 0, by norm_num [MAX_THRUST]⟩, fun _ => rfl⟩

/-- Witness for C1: at roll `π/2` the attitude is edge-on
(`b_z = cos 0 * cos (π/2) = 0`), and the thrust returned is exactly
zero. -/
theorem altitude_thrust_bounded_witness :
    altitude_control 1 2 3 4 ![π / 2, 0, 0] 5 = 0 := by
  apply (altitude_thrust_bounded 1 2 3 4 ![π / 2, 0, 0] 5).2
  have h0 : (![π / 2, 0, 0] : Fin 3 → ℝ) 0 = π / 2 := rfl
  have h1 : (![π / 2, 0, 0] : Fin 3 → ℝ) 1 = 0 := rfl
  have h2 : (![π / 2, 0, 0] : Fin 3 → ℝ) 2 = 0 := rfl
  rw [h0, h1, h2, euler2RM_22, Real.cos_pi_div_two]
  norm_num [EPSILON]

theorem pymod_nonneg (a : ℝ) {b : ℝ} (hb : 0 < b) : 0 ≤ pymod a b := by
  have h := Int.floor_le (a / b)
  have h2 : b * (⌊a / b⌋ : ℝ) ≤ b * (a / b) := mul_le_mul_of_nonneg_left h hb.le
  have h3 : b * (a / b) = a := by field_simp
  rw [pymod]; linarith

theorem pymod_lt (a : ℝ) {b : ℝ} (hb : 0 < b) : pymod a b < b := by
  have h := Int.lt_floor_add_one (a / b)
  have h2 : b * (a / b) < b * ((⌊a / b⌋ : ℝ) + 1) := mul_lt_mul_of_pos_left h hb
  have h3 : b * (a / b) = a := by field_simp
  have h4 : b * ((⌊a / b⌋ : ℝ) + 1) = b * (⌊a / b⌋ : ℝ) + b := by ring
  rw [pymod]; linarith

theorem pymod_eq_self {a b : ℝ} (hb : 0 < b) (h0 : 0 ≤ a) (h1 : a < b) : pymod a b = a := by
  have hfl : ⌊a / b⌋ = 0 := by
    rw [Int.floor_eq_zero_iff]
    exact ⟨div_nonneg h0 hb.le, (div_lt_one hb).2 h1⟩
  rw [pymod, hfl]
  simp

/-- On reals the modulo result is already nonnegative, so the
`if x < 0` branch of `normalize_angle` never fires. -/
theorem normalize_angle_eq (x : ℝ) : normalize_angle x = pymod (x + π) (2 * π) - π := by
  simp only [normalize_angle]
  rw [if_neg (not_lt.2 (pymod_nonneg (x + π) Real.two_pi_pos))]

theorem normalize_angle_mem (x : ℝ) : normalize_angle x ∈ Set.Ico (-π) π := by
  rw [normalize_angle_eq]
  have h1 := pymod_nonneg (x + π) Real.two_pi_pos
  have h2 := pymod_lt (x + π) Real.two_pi_pos
  exact ⟨by linarith, by linarith⟩

theorem normalize_angle_idem (x : ℝ) :
    normalize_angle (normalize_angle x) = normalize_angle x := by
  obtain ⟨h1, h2⟩ := normalize_angle_mem x
  rw [normalize_angle_eq (normalize_angle x),
    pymod_eq_self Real.two_pi_pos (by linarith) (by linarith)]
  ring

theorem normalize_angle_three_half_pi : normalize_angle (3 * π / 2) = -(π / 2) := by
  have hpi := Real.pi_pos
  rw [normalize_angle_eq, pymod]
  have h : (3 * π / 2 + π) / (2 * π) = 5 / 4 := by
    field_simp
    ring
  rw [h, show ⌊(5 / 4 : ℝ)⌋ = 1 by norm_num [Int.floor_eq_iff]]
  push_cast
  ring

/-- C6: `normalize_angle` is idempotent, its output always lies in
`[-π, π)`, an input of `3π/2` normalizes to `-π/2` rather than `3π/2`,
and `yaw_control` applies its P gain (`5.5`) to the wrapped error. -/
theorem normalize_angle_props :
    (∀ x : ℝ, normalize_angle (normalize_angle x) = normalize_angle x) ∧
    (∀ x : ℝ, normalize_angle x ∈ Set.Ico (-π) π) ∧
    normalize_angle (3 * π / 2) = -(π / 2) ∧
    (∀ yaw_cmd yaw : ℝ, yaw_control yaw_cmd yaw = 5.5 * normalize_angle (yaw_cmd - yaw)) :=
  ⟨normalize_angle_idem, normalize_angle_mem, normalize_angle_three_half_pi,
    fun yaw_cmd yaw => by
      simp only [yaw_control, yaw_controller_, PController, PDController.pcontrol,
        PDController.control]
      ring⟩


/-- C9: for zero tracking error and zero feed-forward every stage
returns exactly zero: `lateral_position_control` returns `(0,0)`,
`altitude_control` returns thrust `0`, `body_rate_control` returns
`(0,0,0)`, `yaw_control` returns `0`, and `roll_pitch_controller`
returns `(0,0)` whenever its tilt errors `b_c - b_a` are zero. -/
theorem zero_error_zero_output :
    (∀ p v : Fin 2 → ℝ, lateral_position_control p v p v ![0, 0] = ![0, 0]) ∧
    (∀ (alt vv : ℝ) (att : Fin 3 → ℝ), altitude_control alt vv alt vv att 0 = 0) ∧
    (∀ r : Fin 3 → ℝ, body_rate_control r r = fun _ => 0) ∧
    (∀ y : ℝ, yaw_control y y = 0) ∧
    (∀ (acc : Fin 2 → ℝ) (att : Fin 3 → ℝ) (tc : ℝ),
      EPSILON < |tc| →
      EPSILON < |euler2RM (att 0) (att 1) (att 2) 2 2| →
      clip (acc 0 / (-tc / DRONE_MASS_KG)) (-MAX_TILT) MAX_TILT -
        euler2RM (att 0) (att 1) (att 2) 0 2 = 0 →
      clip (acc 1 / (-tc / DRONE_MASS_KG)) (-MAX_TILT) MAX_TILT -
        euler2RM (att 0) (att 1) (att 2) 1 2 = 0 →
      roll_pitch_controller acc att tc = ![0, 0]) := by
  have hp : ∀ c : PDController, c.pcontrol 0 = 0 := fun c => by
    simp [PDController.pcontrol, PDController.control]
  refine ⟨fun p v => ?_, fun alt vv att => ?_, fun r => ?_, fun y => ?_,
    fun acc att tc h1 h2 hx hy => ?_⟩
  · funext i
    fin_cases i <;>
      simp [lateral_position_control, x_controller_, y_controller_, PDController.control]
  · simp only [altitude_control]
    split_ifs with h
    · simp only [sub_self, PDController.control, altitude_controller_]
      norm_num [clip, MAX_THRUST]
    · rfl
  · funext i
    fin_cases i
    · show clip (MOI 0 * p_controller_.pcontrol (r 0 - r 0)) (-MAX_TORQUE) MAX_TORQUE = 0
      rw [sub_self, hp]
      norm_num [clip, MAX_TORQUE]
    · show clip (MOI 1 * q_controller_.pcontrol (r 1 - r 1)) (-MAX_TORQUE) MAX_TORQUE = 0
      rw [sub_self, hp]
      norm_num [clip, MAX_TORQUE]
    · show clip (MOI 2 * r_controller_.pcontrol (r 2 - r 2)) (-MAX_TORQUE) MAX_TORQUE = 0
      rw [sub_self, hp]
      norm_num [clip, MAX_TORQUE]
  · have hz : normalize_angle (y - y) = 0 := by
      rw [sub_self, normalize_angle_eq,
        pymod_eq_self Real.two_pi_pos (by linarith [Real.pi_pos]) (by linarith [Real.pi_pos])]
      ring
    rw [yaw_control, hz, hp]
  · simp only [roll_pitch_controller, gt_iff_lt, h1, h2, if_true]
    rw [hx, hy, hp, hp]
    funext i
    fin_cases i <;> simp

/-- Witness for C9: at hover attitude `(0,0,0)` with thrust command `1`
and zero commanded acceleration the tilt errors vanish and the
roll-pitch stage returns `(0,0)`; the hypotheses of the final conjunct
hold at this concrete input. -/
theorem zero_error_zero_output_witness :
    roll_pitch_controller ![0, 0] ![0, 0, 0] 1 = ![0, 0] := by
  apply zero_error_zero_output.2.2.2.2
  · norm_num [EPSILON]
  · have h : euler2RM ((![0, 0, 0] : Fin 3 → ℝ) 0) ((![0, 0, 0] : Fin 3 → ℝ) 1)
        ((![0, 0, 0] : Fin 3 → ℝ) 2) 2 2 = 1 := by
      rw [show (![0, 0, 0] : Fin 3 → ℝ) 0 = 0 from rfl, show (![0, 0, 0] : Fin 3 → ℝ) 1 = 0 from rfl,
        show (![0, 0, 0] : Fin 3 → ℝ) 2 = 0 from rfl, euler2RM_22]
      norm_num
    rw [h]
    norm_num [EPSILON]
  · rw [show (![0, 0] : Fin 2 → ℝ) 0 = 0 from rfl, show (![0, 0, 0] : Fin 3 → ℝ) 0 = 0 from rfl,
      show (![0, 0, 0] : Fin 3 → ℝ) 1 = 0 from rfl, show (![0, 0, 0] : Fin 3 → ℝ) 2 = 0 from rfl,
      euler2RM_02]
    norm_num [clip, MAX_TILT]
  · rw [show (![0, 0] : Fin 2 → ℝ) 1 = 0 from rfl, show (![0, 0, 0] : Fin 3 → ℝ) 0 = 0 from rfl,
      show (![0, 0, 0] : Fin 3 → ℝ) 1 = 0 from rfl, show (![0, 0, 0] : Fin 3 → ℝ) 2 = 0 from rfl,
      euler2RM_12]
    norm_num [clip, MAX_TILT]


/-- C3: whenever `|thrust_cmd| > EPSILON` and `|R[2][2]| > EPSILON`,
`roll_pitch_controller` returns exactly
`(1/R[2,2]) * [[R[1,0], -R[0,0]], [R[1,1], -R[0,1]]]` applied to the
tilt-rate vector `[8*(b_c_x - b_a_x), 8*(b_c_y - b_a_y)]`, where
`b_a_x = R[0,2]`, `b_a_y = R[1,2]` and `b_c_x`, `b_c_y` are
`acceleration_cmd[i] / (-thrust_cmd/mass)` clamped into
`[-MAX_TILT, MAX_TILT]`, with exactly this row/column mapping. -/
theorem roll_pitch_formula (acceleration_cmd : Fin 2 → ℝ) (attitude : Fin 3 → ℝ)
    (thrust_cmd : ℝ) (h1 : EPSILON < |thrust_cmd|)
    (h2 : EPSILON < |euler2RM (attitude 0) (attitude 1) (attitude 2) 2 2|) :
    roll_pitch_controller acceleration_cmd attitude thrust_cmd =
      ![1 / euler2RM (attitude 0) (attitude 1) (attitude 2) 2 2 *
          (euler2RM (attitude 0) (attitude 1) (attitude 2) 1 0 *
              (8 * (clip (acceleration_cmd 0 / (-thrust_cmd / DRONE_MASS_KG))
                      (-MAX_TILT) MAX_TILT -
                    euler2RM (attitude 0) (attitude 1) (attitude 2) 0 2)) +
            -(euler2RM (attitude 0) (attitude 1) (attitude 2) 0 0) *
              (8 * (clip (acceleration_cmd 1 / (-thrust_cmd / DRONE_MASS_KG))
                      (-MAX_TILT) MAX_TILT -
                    euler2RM (attitude 0) (attitude 1) (attitude 2) 1 2))),
        1 / euler2RM (attitude 0) (attitude 1) (attitude 2) 2 2 *
          (euler2RM (attitude 0) (attitude 1) (attitude 2) 1 1 *
              (8 * (clip (acceleration_cmd 0 / (-thrust_cmd / DRONE_MASS_KG))
                      (-MAX_TILT) MAX_TILT -
                    euler2RM (attitude 0) (attitude 1) (attitude 2) 0 2)) +
            -(euler2RM (attitude 0) (attitude 1) (attitude 2) 0 1) *
              (8 * (clip (acceleration_cmd 1 / (-thrust_cmd / DRONE_MASS_KG))
                      (-MAX_TILT) MAX_TILT -
                    euler2RM (attitude 0) (attitude 1) (attitude 2) 1 2)))] := by
  have hc : ∀ e : ℝ, roll_controller_.pcontrol e = 8 * e := fun e => by
    simp only [PDController.pcontrol, PDController.control, roll_controller_, PController]
    norm_num
  simp only [roll_pitch_controller, gt_iff_lt, h1, h2, if_true, pitch_controller_, hc]

/-- Witness for C3: at attitude `(0,0,0)` (identity rotation), thrust
command `1` and commanded acceleration `(1,0)` both guards hold and the
formula evaluates to `(0, -4)`. -/
theorem roll_pitch_formula_witness :
    roll_pitch_controller ![1, 0] ![0, 0, 0] 1 = ![0, -4] := by
  have e0 : (![0, 0, 0] : Fin 3 → ℝ) 0 = 0 := rfl
  have e1 : (![0, 0, 0] : Fin 3 → ℝ) 1 = 0 := rfl
  have e2 : (![0, 0, 0] : Fin 3 → ℝ) 2 = 0 := rfl
  have h := roll_pitch_formula ![1, 0] ![0, 0, 0] 1 (by norm_num [EPSILON])
    (by rw [e0, e1, e2, euler2RM_22]; norm_num [EPSILON])
  rw [h]
  funext i
  fin_cases i <;>
    norm_num [e0, e1, e2, euler2RM_00, euler2RM_01, euler2RM_02, euler2RM_10, euler2RM_11,
      euler2RM_12, euler2RM_22, clip, MAX_TILT, DRONE_MASS_KG, min_def, max_def]


/-- If every remaining distance is at least the best seen so far, the
scan keeps the current best index. -/
theorem argminAux_of_ge (t : ℝ) :
    ∀ (as : List ℝ) (i best : ℕ) (bestVal : ℝ),
      (∀ a ∈ as, bestVal ≤ |a - t|) → argminAux t as i best bestVal = best := by
  intro as
  induction as with
  | nil => intro i best bestVal _; rfl
  | cons a as ih =>
    intro i best bestVal h
    simp only [argminAux]
    rw [if_neg (not_lt.2 (h a (List.mem_cons_self a as)))]
    exact ih _ _ _ fun b hb => h b (List.mem_cons_of_mem a hb)

/-- If position `k` of the remaining list is a strict minimiser, both
against the accumulator and against every other remaining position, the
scan returns `i + k`. -/
theorem argminAux_unique (t : ℝ) :
    ∀ (as : List ℝ) (k i best : ℕ) (bestVal : ℝ),
      k < as.length → |as.getD k 0 - t| < bestVal →
      (∀ m, m < as.length → m ≠ k → |as.getD k 0 - t| < |as.getD m 0 - t|) →
      argminAux t as i best bestVal = i + k := by
  intro as
  induction as with
  | nil => intro k i best bestVal hk _ _; exact absurd hk (Nat.not_lt_zero k)
  | cons a as ih =>
    intro k i best bestVal hk hbest huniq
    rcases k with _ | k
    · rw [List.getD_cons_zero] at hbest
      simp only [argminAux]
      rw [if_pos hbest, Nat.add_zero]
      apply argminAux_of_ge
      intro b hb
      obtain ⟨m, rfl⟩ := List.mem_iff_get.1 hb
      have h5 := huniq (m.val + 1) (by simp) (Nat.succ_ne_zero _)
      rw [List.getD_cons_zero, List.getD_cons_succ, List.getD_eq_getElem as 0 m.isLt,
        ← List.get_eq_getElem] at h5
      exact le_of_lt h5
    · have hk2 : k < as.length := by simpa using hk
      rw [List.getD_cons_succ] at hbest
      have h0 := huniq 0 (Nat.succ_pos _) (Nat.succ_ne_zero k).symm
      rw [List.getD_cons_zero, List.getD_cons_succ] at h0
      have huniq2 : ∀ m, m < as.length → m ≠ k →
          |as.getD k 0 - t| < |as.getD m 0 - t| := by
        intro m hm hne
        have := huniq (m + 1) (by simpa using hm) (fun hcon => hne (Nat.succ_injective hcon))
        rwa [List.getD_cons_succ, List.getD_cons_succ] at this
      simp only [argminAux]
      by_cases hc : |a - t| < bestVal
      · rw [if_pos hc, ih k (i + 1) i |a - t| hk2 h0 huniq2]
        omega
      · rw [if_neg hc, ih k (i + 1) best bestVal hk2 hbest huniq2]
        omega

/-- Before the first timestamp of a strictly increasing trajectory,
`np.argmin` picks index `0`. -/
theorem ind_min_of_lt_head (a : ℝ) (as : List ℝ) (t : ℝ)
    (hsorted : (a :: as).Sorted (· < ·)) (ht : t < a) : ind_min (a :: as) t = 0 := by
  simp only [ind_min]
  apply argminAux_of_ge
  intro b hb
  have hab : a < b := (List.sorted_cons.1 hsorted).1 b hb
  rw [abs_of_pos (by linarith : 0 < a - t), abs_of_pos (by linarith : 0 < b - t)]
  linarith


/-- Strict monotonicity of indexing into a strictly sorted list. -/
theorem sorted_getD_lt (l : List ℝ) (hs : l.Sorted (· < ·)) {m k : ℕ}
    (hmk : m < k) (hk : k < l.length) : l.getD m 0 < l.getD k 0 := by
  rw [List.getD_eq_getElem l 0 (lt_trans hmk hk), List.getD_eq_getElem l 0 hk]
  exact List.pairwise_iff_getElem.1 hs m k (lt_trans hmk hk) hk hmk

/-- At or past the last timestamp of a strictly increasing trajectory,
`np.argmin` picks the last index. -/
theorem ind_min_of_last_le (times : List ℝ) (t : ℝ)
    (hne : times ≠ []) (hsorted : times.Sorted (· < ·))
    (ht : times.getD (times.length - 1) 0 ≤ t) :
    ind_min times t = times.length - 1 := by
  obtain ⟨a, as, rfl⟩ := List.exists_cons_of_ne_nil hne
  rcases as with _ | ⟨b, bs⟩
  · simp [ind_min, argminAux]
  · have hlen1 : (a :: b :: bs).length - 1 = bs.length + 1 := by simp
    rw [hlen1, List.getD_cons_succ] at ht
    have hmemL : (b :: bs).getD bs.length 0 ∈ b :: bs := by
      rw [List.getD_eq_getElem _ 0 (by simp)]
      exact List.getElem_mem _
    have haL : a < (b :: bs).getD bs.length 0 := (List.sorted_cons.1 hsorted).1 _ hmemL
    have key : argminAux t (b :: bs) 1 0 |a - t| = 1 + bs.length := by
      apply argminAux_unique t (b :: bs) bs.length 1 0 |a - t| (by simp) ?_ ?_
      · rw [abs_of_nonpos (by linarith), abs_of_nonpos (by linarith)]
        linarith
      · intro m hm hne2
        have hmlt : m < bs.length := by
          have : m < bs.length + 1 := by simpa using hm
          omega
        have hx : (b :: bs).getD m 0 < (b :: bs).getD bs.length 0 :=
          sorted_getD_lt _ (List.sorted_cons.1 hsorted).2 hmlt (by simp)
        rw [abs_of_nonpos (by linarith), abs_of_nonpos (by linarith)]
        linarith
    simp only [ind_min, key, hlen1, List.length_cons]
    omega

/-- Exactly at the timestamp of index `i` of a strictly increasing
trajectory, `np.argmin` picks `i`. -/
theorem ind_min_of_getD_eq (times : List ℝ) (t : ℝ) (i : ℕ) (hi : i < times.length)
    (hsorted : times.Sorted (· < ·)) (ht : t = times.getD i 0) :
    ind_min times t = i := by
  have hne : times ≠ [] := by
    intro hcon
    rw [hcon] at hi
    simp at hi
  obtain ⟨a, as, rfl⟩ := List.exists_cons_of_ne_nil hne
  rcases i with _ | k
  · rw [List.getD_cons_zero] at ht
    subst ht
    simp only [ind_min]
    apply argminAux_of_ge
    intro b _
    simp
  · have hk : k < as.length := by simpa using hi
    rw [List.getD_cons_succ] at ht
    have hmem : as.getD k 0 ∈ as := by
      rw [List.getD_eq_getElem as 0 hk]
      exact List.getElem_mem _
    have hak : a < as.getD k 0 := (List.sorted_cons.1 hsorted).1 _ hmem
    have hs2 : as.Sorted (· < ·) := (List.sorted_cons.1 hsorted).2
    have hzero : |as.getD k 0 - t| = 0 := by rw [ht, sub_self, abs_zero]
    have key : argminAux t as 1 0 |a - t| = 1 + k := by
      apply argminAux_unique t as k 1 0 |a - t| hk ?_ ?_
      · rw [hzero]
        have hat : a < t := by rw [ht]; exact hak
        exact abs_pos.2 (sub_ne_zero.2 (ne_of_lt hat))
      · intro m hm hne2
        rw [hzero]
        apply abs_pos.2 (sub_ne_zero.2 ?_)
        rcases Nat.lt_or_ge m k with hmk | hmk
        · have hlt : as.getD m 0 < t := by rw [ht]; exact sorted_getD_lt as hs2 hmk hk
          exact ne_of_lt hlt
        · have hkm : k < m := by omega
          have hgt : t < as.getD m 0 := by rw [ht]; exact sorted_getD_lt as hs2 hkm hm
          exact ne_of_gt hgt
    simp only [ind_min, key]
    omega


/-- Evaluation of `np.argmin` over a two-element trajectory. -/
theorem ind_min_pair (a b t : ℝ) :
    ind_min [a, b] t = if |b - t| < |a - t| then 1 else 0 := by
  simp only [ind_min, argminAux]

theorem pyIdx_coe (len i : ℕ) : pyIdx len (i : ℤ) = i := by
  simp only [pyIdx]
  rw [if_neg (by omega)]
  omega

theorem pyIdx_coe_sub_one {len : ℕ} (i : ℕ) (h : 1 ≤ i) :
    pyIdx len ((i : ℤ) - 1) = i - 1 := by
  simp only [pyIdx]
  rw [if_neg (by omega)]
  omega

theorem pyIdx_zero_sub_one {len : ℕ} (h : 1 ≤ len) :
    pyIdx len ((0 : ℤ) - 1) = len - 1 := by
  simp only [pyIdx]
  rw [if_pos (by omega)]
  omega

/-- C2 (amended): with at least two waypoints and `current_time` before
the first timestamp, `trajectory_control` does not hold the first
waypoint: Python's negative indexing (`ind_min - 1 = -1`) selects the
last waypoint, so the sampler linearly extrapolates between the last
and the first waypoint. -/
theorem trajectory_before_start (position_trajectory : List (Fin 3 → ℝ))
    (yaw_trajectory time_trajectory : List ℝ) (current_time : ℝ)
    (hsorted : time_trajectory.Sorted (· < ·))
    (hlen2 : 2 ≤ time_trajectory.length)
    (hlenp : position_trajectory.length = time_trajectory.length)
    (hleny : yaw_trajectory.length = time_trajectory.length)
    (ht : current_time < time_trajectory.getD 0 0) :
    trajectory_control position_trajectory yaw_trajectory time_trajectory current_time =
      (fun j => (position_trajectory.getD 0 (fun _ => 0) j -
            position_trajectory.getD (time_trajectory.length - 1) (fun _ => 0) j) *
          (current_time - time_trajectory.getD (time_trajectory.length - 1) 0) /
          (time_trajectory.getD 0 0 - time_trajectory.getD (time_trajectory.length - 1) 0) +
          position_trajectory.getD (time_trajectory.length - 1) (fun _ => 0) j,
       fun j => (position_trajectory.getD 0 (fun _ => 0) j -
            position_trajectory.getD (time_trajectory.length - 1) (fun _ => 0) j) /
          (time_trajectory.getD 0 0 - time_trajectory.getD (time_trajectory.length - 1) 0),
       yaw_trajectory.getD (time_trajectory.length - 1) 0) := by
  have hne : time_trajectory ≠ [] := by
    intro hcon
    rw [hcon] at hlen2
    simp at hlen2
  have hmin : ind_min time_trajectory current_time = 0 := by
    obtain ⟨a, as, hd⟩ := List.exists_cons_of_ne_nil hne
    rw [hd] at ht ⊢
    rw [List.getD_cons_zero] at ht
    exact ind_min_of_lt_head a as _ (hd ▸ hsorted) ht
  have hv1 : pyGetV position_trajectory ((0 : ℤ) - 1) =
      position_trajectory.getD (time_trajectory.length - 1) (fun _ => 0) := by
    rw [pyGetV, pyIdx_zero_sub_one (by omega), hlenp]
  have hv0 : pyGetV position_trajectory (0 : ℤ) = position_trajectory.getD 0 (fun _ => 0) := by
    rw [pyGetV, show ((0 : ℤ)) = ((0 : ℕ) : ℤ) by norm_num, pyIdx_coe]
  have hs1 : pyGetS time_trajectory ((0 : ℤ) - 1) =
      time_trajectory.getD (time_trajectory.length - 1) 0 := by
    rw [pyGetS, pyIdx_zero_sub_one (by omega)]
  have hy1 : pyGetS yaw_trajectory ((0 : ℤ) - 1) =
      yaw_trajectory.getD (time_trajectory.length - 1) 0 := by
    rw [pyGetS, pyIdx_zero_sub_one (by omega), hleny]
  simp only [trajectory_control, hmin, Nat.cast_zero, if_pos ht, hv1, hv0, hs1, hy1]


/-- Concrete evaluation: two waypoints at times `0` and `2`, sampled at
`t = -1` (before the start).  The position command's north component is
`-1`, obtained by extrapolating between the last and first waypoints. -/
theorem traj_cex_eval :
    (trajectory_control [(![0, 0, 0] : Fin 3 → ℝ), ![2, 0, 0]] [0, 0] [0, 2] (-1)).1 0 = -1 := by
  have hcond : ¬ (|(2 : ℝ) - -1| < |(0 : ℝ) - -1|) := by
    rw [show (2 : ℝ) - -1 = 3 by norm_num, show (0 : ℝ) - -1 = 1 by norm_num,
      abs_of_pos (show (0 : ℝ) < 3 by norm_num), abs_of_pos (show (0 : ℝ) < 1 by norm_num)]
    norm_num
  have hmin : ind_min [(0 : ℝ), 2] (-1) = 0 := by rw [ind_min_pair, if_neg hcond]
  have e0 : pyGetV [(![0, 0, 0] : Fin 3 → ℝ), ![2, 0, 0]] ((0 : ℤ) - 1) = ![2, 0, 0] := rfl
  have e1 : pyGetV [(![0, 0, 0] : Fin 3 → ℝ), ![2, 0, 0]] (0 : ℤ) = ![0, 0, 0] := rfl
  have e2 : pyGetS [(0 : ℝ), 2] ((0 : ℤ) - 1) = 2 := rfl
  simp only [trajectory_control, hmin, Nat.cast_zero, List.getD_cons_zero]
  rw [if_pos (show (-1 : ℝ) < 0 by norm_num)]
  simp only [e0, e1, e2]
  norm_num [Matrix.cons_val_zero]

/-- Counterexample to C2 as stated: for the two-waypoint trajectory
`times = [0, 2]`, `positions = [(0,0,0), (2,0,0)]` sampled at
`t = -1 < times[0]`, the position command is `(-1, 0, 0)`, not the
first waypoint `(0, 0, 0)`. -/
theorem trajectory_before_start_as_stated_false :
    ¬ (∀ (pos : List (Fin 3 → ℝ)) (yaws times : List ℝ) (t : ℝ),
        times.Sorted (· < ·) → pos.length = times.length → yaws.length = times.length →
        t < times.getD 0 0 →
        (trajectory_control pos yaws times t).1 = pos.getD 0 (fun _ => 0)) := by
  intro hclaim
  have h2 := hclaim [![0, 0, 0], ![2, 0, 0]] [0, 0] [0, 2] (-1)
    (by norm_num [List.sorted_cons]) (by simp) (by simp) (by norm_num [List.getD_cons_zero])
  have h3 := congrFun h2 0
  rw [traj_cex_eval] at h3
  norm_num [List.getD_cons_zero, Matrix.cons_val_zero] at h3

/-- Witness for C2 (amended): at the counterexample input the sampler
returns the last-to-first extrapolation `(-1,0,0)` with slope velocity
`(1,0,0)` and the last waypoint's yaw. -/
theorem trajectory_before_start_witness :
    trajectory_control [(![0, 0, 0] : Fin 3 → ℝ), ![2, 0, 0]] [0, 0] [0, 2] (-1) =
      (![-1, 0, 0], ![1, 0, 0], 0) := by
  rw [trajectory_before_start _ _ _ _ (by norm_num [List.sorted_cons]) (by norm_num)
    (by simp) (by simp) (by norm_num [List.getD_cons_zero])]
  refine Prod.ext_iff.mpr ⟨?_, Prod.ext_iff.mpr ⟨?_, ?_⟩⟩
  · funext j
    fin_cases j <;>
      norm_num [List.getD_cons_zero, List.getD_cons_succ, Matrix.cons_val_zero,
        Matrix.cons_val_one, Matrix.head_cons, Matrix.cons_val_two, Matrix.tail_cons]
  · funext j
    fin_cases j <;>
      norm_num [List.getD_cons_zero, List.getD_cons_succ, Matrix.cons_val_zero,
        Matrix.cons_val_one, Matrix.head_cons, Matrix.cons_val_two, Matrix.tail_cons]
  · norm_num [List.getD_cons_zero, List.getD_cons_succ]


/-- C5: at or past the final timestamp, `trajectory_control` holds the
final waypoint's position and returns zero velocity, via the degenerate
`time0 = 0`, `time1 = 1` denominator path. -/
theorem trajectory_past_end (position_trajectory : List (Fin 3 → ℝ))
    (yaw_trajectory time_trajectory : List ℝ) (current_time : ℝ)
    (hsorted : time_trajectory.Sorted (· < ·))
    (hne : 1 ≤ time_trajectory.length)
    (hlenp : position_trajectory.length = time_trajectory.length)
    (ht : time_trajectory.getD (time_trajectory.length - 1) 0 ≤ current_time) :
    (trajectory_control position_trajectory yaw_trajectory time_trajectory current_time).1 =
      position_trajectory.getD (time_trajectory.length - 1) (fun _ => 0) ∧
    (trajectory_control position_trajectory yaw_trajectory time_trajectory current_time).2.1 =
      fun _ => 0 := by
  have hne2 : time_trajectory ≠ [] := by
    intro hcon
    rw [hcon] at hne
    simp at hne
  have hmin := ind_min_of_last_le time_trajectory current_time hne2 hsorted ht
  simp only [trajectory_control, hmin]
  rw [if_neg (not_lt.2 ht),
    if_pos (show position_trajectory.length - 1 ≤ time_trajectory.length - 1 by omega)]
  constructor
  · funext j
    simp
  · funext j
    simp

/-- Witness for C5: waypoints at times `0` and `2` sampled at `t = 3`
hold the final position `(2,0,0)` with zero velocity. -/
theorem trajectory_past_end_witness :
    (trajectory_control [(![0, 0, 0] : Fin 3 → ℝ), ![2, 0, 0]] [0, 0] [0, 2] 3).1 = ![2, 0, 0] ∧
    (trajectory_control [(![0, 0, 0] : Fin 3 → ℝ), ![2, 0, 0]] [0, 0] [0, 2] 3).2.1 =
      fun _ => 0 := by
  have h := trajectory_past_end [(![0, 0, 0] : Fin 3 → ℝ), ![2, 0, 0]] [0, 0] [0, 2] 3
    (by norm_num [List.sorted_cons]) (by simp) (by simp)
    (by norm_num [List.getD_cons_zero, List.getD_cons_succ])
  refine ⟨?_, h.2⟩
  rw [h.1]
  norm_num [List.getD_cons_zero, List.getD_cons_succ]

/-- C7: with `i = ind_min`, when `current_time` precedes `times[i]` the
yaw command is the earlier sample's yaw (index `i - 1`); otherwise it
is the current sample's yaw (index `i`), in both the
interior-interpolation and last-index branches. -/
theorem trajectory_yaw_choice (position_trajectory : List (Fin 3 → ℝ))
    (yaw_trajectory time_trajectory : List ℝ) (current_time : ℝ) :
    (current_time < time_trajectory.getD (ind_min time_trajectory current_time) 0 →
      1 ≤ ind_min time_trajectory current_time →
      (trajectory_control position_trajectory yaw_trajectory time_trajectory current_time).2.2 =
        yaw_trajectory.getD (ind_min time_trajectory current_time - 1) 0) ∧
    (time_trajectory.getD (ind_min time_trajectory current_time) 0 ≤ current_time →
      (trajectory_control position_trajectory yaw_trajectory time_trajectory current_time).2.2 =
        yaw_trajectory.getD (ind_min time_trajectory current_time) 0) := by
  constructor
  · intro hlt h1
    simp only [trajectory_control]
    rw [if_pos hlt]
    show pyGetS yaw_trajectory ((ind_min time_trajectory current_time : ℤ) - 1) =
      yaw_trajectory.getD (ind_min time_trajectory current_time - 1) 0
    rw [pyGetS, pyIdx_coe_sub_one _ h1]
  · intro hge
    simp only [trajectory_control]
    rw [if_neg (not_lt.2 hge)]
    by_cases hc : position_trajectory.length - 1 ≤ ind_min time_trajectory current_time
    · rw [if_pos hc]
    · rw [if_neg hc]

/-- Witness for C7: with times `[0, 2]` and yaws `[7, 9]`, sampling at
`t = 1.5` (before the nearest sample, index 1) yields the earlier yaw
`7`; sampling at `t = 3` (at/after the nearest sample) yields the
current yaw `9`. -/
theorem trajectory_yaw_choice_witness :
    (trajectory_control [(![0, 0, 0] : Fin 3 → ℝ), ![2, 0, 0]] [7, 9] [0, 2] 1.5).2.2 = 7 ∧
    (trajectory_control [(![0, 0, 0] : Fin 3 → ℝ), ![2, 0, 0]] [7, 9] [0, 2] 3).2.2 = 9 := by
  have hm1 : ind_min [(0 : ℝ), 2] 1.5 = 1 := by
    rw [ind_min_pair, if_pos ?_]
    rw [show (2 : ℝ) - 1.5 = 0.5 by norm_num, show (0 : ℝ) - 1.5 = -1.5 by norm_num,
      abs_of_pos (show (0 : ℝ) < 0.5 by norm_num), abs_of_neg (show (-1.5 : ℝ) < 0 by norm_num)]
    norm_num
  have hm2 : ind_min [(0 : ℝ), 2] 3 = 1 := by
    rw [ind_min_pair, if_pos ?_]
    rw [show (2 : ℝ) - 3 = -1 by norm_num, show (0 : ℝ) - 3 = -3 by norm_num,
      abs_of_neg (show (-1 : ℝ) < 0 by norm_num), abs_of_neg (show (-3 : ℝ) < 0 by norm_num)]
    norm_num
  constructor
  · have h := (trajectory_yaw_choice [(![0, 0, 0] : Fin 3 → ℝ), ![2, 0, 0]] [7, 9] [0, 2] 1.5).1
      (by rw [hm1]; norm_num [List.getD_cons_zero, List.getD_cons_succ]) (by rw [hm1])
    rw [h, hm1]
    norm_num [List.getD_cons_zero]
  · have h := (trajectory_yaw_choice [(![0, 0, 0] : Fin 3 → ℝ), ![2, 0, 0]] [7, 9] [0, 2] 3).2
      (by rw [hm2]; norm_num [List.getD_cons_zero, List.getD_cons_succ])
    rw [h, hm2]
    norm_num [List.getD_cons_zero, List.getD_cons_succ]

/-- C8: sampling exactly at a non-final waypoint timestamp `times[i]`
returns that waypoint's position and the slope toward the next waypoint
as the velocity command. -/
theorem trajectory_at_waypoint (position_trajectory : List (Fin 3 → ℝ))
    (yaw_trajectory time_trajectory : List ℝ) (i : ℕ)
    (hsorted : time_trajectory.Sorted (· < ·))
    (hlenp : position_trajectory.length = time_trajectory.length)
    (hi : i + 1 < time_trajectory.length) :
    (trajectory_control position_trajectory yaw_trajectory time_trajectory
        (time_trajectory.getD i 0)).1 = position_trajectory.getD i (fun _ => 0) ∧
    (trajectory_control position_trajectory yaw_trajectory time_trajectory
        (time_trajectory.getD i 0)).2.1 =
      fun j => (position_trajectory.getD (i + 1) (fun _ => 0) j -
          position_trajectory.getD i (fun _ => 0) j) /
        (time_trajectory.getD (i + 1) 0 - time_trajectory.getD i 0) := by
  have hmin := ind_min_of_getD_eq time_trajectory (time_trajectory.getD i 0) i (by omega)
    hsorted rfl
  simp only [trajectory_control, hmin]
  rw [if_neg (lt_irrefl _),
    if_neg (show ¬ position_trajectory.length - 1 ≤ i by omega)]
  constructor
  · funext j
    simp
  · rfl

/-- Witness for C8: the spec's example — waypoints `(t=0,(0,0,0))` and
`(t=2,(2,0,0))` sampled at `t=0` return position `(0,0,0)` and velocity
`(1,0,0)`. -/
theorem trajectory_at_waypoint_witness :
    (trajectory_control [(![0, 0, 0] : Fin 3 → ℝ), ![2, 0, 0]] [0, 0] [0, 2] 0).1 = ![0, 0, 0] ∧
    (trajectory_control [(![0, 0, 0] : Fin 3 → ℝ), ![2, 0, 0]] [0, 0] [0, 2] 0).2.1 =
      ![1, 0, 0] := by
  have h := trajectory_at_waypoint [(![0, 0, 0] : Fin 3 → ℝ), ![2, 0, 0]] [0, 0] [0, 2] 0
    (by norm_num [List.sorted_cons]) (by simp) (by simp)
  rw [show ([(0 : ℝ), 2].getD 0 0) = 0 from rfl] at h
  constructor
  · rw [h.1]
    rfl
  · rw [h.2]
    funext j
    fin_cases j <;>
      norm_num [List.getD_cons_zero, List.getD_cons_succ, Matrix.cons_val_zero,
        Matrix.cons_val_one, Matrix.head_cons, Matrix.cons_val_two, Matrix.tail_cons]


/-- Every entry of the modelled rotation matrix is bounded by `2` in
absolute value (each entry is a product of sines/cosines or a sum of
two such products). -/
theorem abs_euler2RM_le (r p y : ℝ) (i j : Fin 3) : |euler2RM r p y i j| ≤ 2 := by
  have b2 : ∀ a c : ℝ, |a| ≤ 1 → |c| ≤ 1 → |a * c| ≤ 1 := fun a c ha hc => by
    rw [abs_mul]
    exact mul_le_one₀ ha (abs_nonneg _) hc
  have b3 : ∀ a c d : ℝ, |a| ≤ 1 → |c| ≤ 1 → |d| ≤ 1 → |a * c * d| ≤ 1 := fun a c d ha hc hd => by
    rw [abs_mul]
    exact mul_le_one₀ (b2 a c ha hc) (abs_nonneg _) hd
  have badd : ∀ a c : ℝ, |a| ≤ 1 → |c| ≤ 1 → |a + c| ≤ 2 := fun a c ha hc =>
    (abs_add a c).trans (by linarith)
  have bsub : ∀ a c : ℝ, |a| ≤ 1 → |c| ≤ 1 → |a - c| ≤ 2 := fun a c ha hc => by
    have h := abs_add a (-c)
    rw [abs_neg] at h
    rw [sub_eq_add_neg]
    linarith
  fin_cases i <;> fin_cases j
  · exact le_trans (b2 _ _ (abs_cos_le_one _) (abs_cos_le_one _)) (by norm_num)
  · exact bsub _ _ (b3 _ _ _ (abs_cos_le_one _) (abs_sin_le_one _) (abs_sin_le_one _))
      (b2 _ _ (abs_sin_le_one _) (abs_cos_le_one _))
  · exact badd _ _ (b3 _ _ _ (abs_cos_le_one _) (abs_sin_le_one _) (abs_cos_le_one _))
      (b2 _ _ (abs_sin_le_one _) (abs_sin_le_one _))
  · exact le_trans (b2 _ _ (abs_sin_le_one _) (abs_cos_le_one _)) (by norm_num)
  · exact badd _ _ (b3 _ _ _ (abs_sin_le_one _) (abs_sin_le_one _) (abs_sin_le_one _))
      (b2 _ _ (abs_cos_le_one _) (abs_cos_le_one _))
  · exact bsub _ _ (b3 _ _ _ (abs_sin_le_one _) (abs_sin_le_one _) (abs_cos_le_one _))
      (b2 _ _ (abs_cos_le_one _) (abs_sin_le_one _))
  · show |-sin p| ≤ 2
    rw [abs_neg]
    linarith [abs_sin_le_one p]
  · exact le_trans (b2 _ _ (abs_cos_le_one _) (abs_sin_le_one _)) (by norm_num)
  · exact le_trans (b2 _ _ (abs_cos_le_one _) (abs_cos_le_one _)) (by norm_num)

theorem tilt_rate_abs_le {x y : ℝ} (hx : |x| ≤ 1) (hy : |y| ≤ 2) : |8 * (x - y)| ≤ 24 := by
  have h := abs_add x (-y)
  rw [abs_neg] at h
  rw [abs_mul, sub_eq_add_neg, show |(8 : ℝ)| = 8 from abs_of_pos (by norm_num)]
  nlinarith [abs_nonneg (x + -y)]

theorem mix_abs_le {rz A B v0 v1 : ℝ} (hrz : EPSILON < |rz|) (hA : |A| ≤ 2) (hB : |B| ≤ 2)
    (hv0 : |v0| ≤ 24) (hv1 : |v1| ≤ 24) : |1 / rz * (A * v0 + -B * v1)| ≤ 10 ^ 7 := by
  have heps : (0 : ℝ) < EPSILON := by norm_num [EPSILON]
  have h1 : |1 / rz| = 1 / |rz| := by rw [abs_div, abs_one]
  have h2 : 1 / |rz| ≤ 1 / EPSILON := one_div_le_one_div_of_le heps (le_of_lt hrz)
  have h3 : |A * v0 + -B * v1| ≤ 96 := by
    have ha := abs_add (A * v0) (-B * v1)
    rw [abs_mul, abs_mul, abs_neg] at ha
    have hAv : |A| * |v0| ≤ 2 * 24 := mul_le_mul hA hv0 (abs_nonneg _) (by norm_num)
    have hBv : |B| * |v1| ≤ 2 * 24 := mul_le_mul hB hv1 (abs_nonneg _) (by norm_num)
    linarith
  calc |1 / rz * (A * v0 + -B * v1)| = |1 / rz| * |A * v0 + -B * v1| := abs_mul _ _
    _ ≤ (1 / EPSILON) * 96 := by
        rw [h1]
        exact mul_le_mul h2 h3 (abs_nonneg _) (by positivity)
    _ ≤ 10 ^ 7 := by norm_num [EPSILON]

/-- Over all inputs satisfying the guards, the roll/pitch rate commands
are bounded: `|R[2][2]| > EPSILON` caps the `1/R[2][2]` factor at
`1/EPSILON` and the clamped tilt targets cap the tilt-rate vector, so
no output component can exceed `10^7`. -/
theorem roll_pitch_output_le (acceleration_cmd : Fin 2 → ℝ) (attitude : Fin 3 → ℝ)
    (thrust_cmd : ℝ) (j : Fin 2) :
    |roll_pitch_controller acceleration_cmd attitude thrust_cmd j| ≤ 10 ^ 7 := by
  have hc : ∀ e : ℝ, roll_controller_.pcontrol e = 8 * e := fun e => by
    simp only [PDController.pcontrol, PDController.control, roll_controller_, PController]
    norm_num
  rcases le_or_lt |thrust_cmd| EPSILON with g1 | g1
  · simp only [roll_pitch_controller]
    rw [if_neg (not_lt.2 g1)]
    fin_cases j <;> norm_num
  rcases le_or_lt |euler2RM (attitude 0) (attitude 1) (attitude 2) 2 2| EPSILON with g2 | g2
  · simp only [roll_pitch_controller]
    rw [if_pos g1, if_neg (not_lt.2 g2)]
    fin_cases j <;> norm_num
  · have hbc0 : |clip (acceleration_cmd 0 / (-thrust_cmd / DRONE_MASS_KG))
        (-MAX_TILT) MAX_TILT| ≤ 1 :=
      le_trans (abs_clip_le (by norm_num [MAX_TILT])) (by norm_num [MAX_TILT])
    have hbc1 : |clip (acceleration_cmd 1 / (-thrust_cmd / DRONE_MASS_KG))
        (-MAX_TILT) MAX_TILT| ≤ 1 :=
      le_trans (abs_clip_le (by norm_num [MAX_TILT])) (by norm_num [MAX_TILT])
    have hv0 := tilt_rate_abs_le hbc0 (abs_euler2RM_le (attitude 0) (attitude 1) (attitude 2) 0 2)
    have hv1 := tilt_rate_abs_le hbc1 (abs_euler2RM_le (attitude 0) (attitude 1) (attitude 2) 1 2)
    simp only [roll_pitch_controller]
    rw [if_pos g1, if_pos g2]
    simp only [pitch_controller_, hc]
    fin_cases j
    · exact mix_abs_le g2 (abs_euler2RM_le _ _ _ 1 0) (abs_euler2RM_le _ _ _ 0 0) hv0 hv1
    · exact mix_abs_le g2 (abs_euler2RM_le _ _ _ 1 1) (abs_euler2RM_le _ _ _ 0 1) hv0 hv1

/-- Counterexample to C10 as stated: the returned rate magnitude cannot
exceed *every* bound `B` — taking `B = 10^7` there is no valid input
whose output exceeds it, because the guard `|R[2][2]| > EPSILON` and
the tilt clamp bound the whole expression. -/
theorem roll_pitch_rate_unbounded_false :
    ¬ (∀ B : ℝ, ∃ (acceleration_cmd : Fin 2 → ℝ) (attitude : Fin 3 → ℝ) (thrust_cmd : ℝ),
        EPSILON < |thrust_cmd| ∧
        EPSILON < |euler2RM (attitude 0) (attitude 1) (attitude 2) 2 2| ∧
        (B < |roll_pitch_controller acceleration_cmd attitude thrust_cmd 0| ∨
         B < |roll_pitch_controller acceleration_cmd attitude thrust_cmd 1|)) := by
  intro h
  obtain ⟨acc, att, tc, _, _, hbig⟩ := h (10 ^ 7)
  rcases hbig with hb | hb
  · exact absurd hb (not_lt.2 (roll_pitch_output_le acc att tc 0))
  · exact absurd hb (not_lt.2 (roll_pitch_output_le acc att tc 1))


/-- C10 (amended): the roll/pitch rate commands are never clamped — the
output can far exceed every physical bound in the controller (there are
valid guarded inputs whose rate magnitude exceeds `1000`), but it is
not unbounded: since the guard forces `|R[2][2]| > EPSILON` and the
tilt targets are clamped, no output component exceeds `10^7`. -/
theorem roll_pitch_rate_no_clamp :
    (∃ (acceleration_cmd : Fin 2 → ℝ) (attitude : Fin 3 → ℝ) (thrust_cmd : ℝ),
      EPSILON < |thrust_cmd| ∧
      EPSILON < |euler2RM (attitude 0) (attitude 1) (attitude 2) 2 2| ∧
      1000 < |roll_pitch_controller acceleration_cmd attitude thrust_cmd 0|) ∧
    (∀ (acceleration_cmd : Fin 2 → ℝ) (attitude : Fin 3 → ℝ) (thrust_cmd : ℝ) (j : Fin 2),
      |roll_pitch_controller acceleration_cmd attitude thrust_cmd j| ≤ 10 ^ 7) := by
  have hcos : Real.cos (Real.arccos (800 / 160001)) = 800 / 160001 :=
    Real.cos_arccos (by norm_num) (by norm_num)
  have hsin : Real.sin (Real.arccos (800 / 160001)) = 159999 / 160001 := by
    rw [Real.sin_arccos, show (1 : ℝ) - (800 / 160001) ^ 2 = (159999 / 160001) ^ 2 by norm_num,
      Real.sqrt_sq (by norm_num)]
  have a0 : (![Real.arccos (800 / 160001), 0, 0] : Fin 3 → ℝ) 0 = Real.arccos (800 / 160001) :=
    rfl
  have a1 : (![Real.arccos (800 / 160001), 0, 0] : Fin 3 → ℝ) 1 = 0 := rfl
  have a2 : (![Real.arccos (800 / 160001), 0, 0] : Fin 3 → ℝ) 2 = 0 := rfl
  have h1 : EPSILON < |(-(1 / 2) : ℝ)| := by
    rw [abs_of_neg (show (-(1 / 2) : ℝ) < 0 by norm_num)]
    norm_num [EPSILON]
  have h2 : EPSILON < |euler2RM ((![Real.arccos (800 / 160001), 0, 0] : Fin 3 → ℝ) 0)
      ((![Real.arccos (800 / 160001), 0, 0] : Fin 3 → ℝ) 1)
      ((![Real.arccos (800 / 160001), 0, 0] : Fin 3 → ℝ) 2) 2 2| := by
    rw [a0, a1, a2, euler2RM_22, Real.cos_zero, one_mul, hcos,
      abs_of_pos (show (0 : ℝ) < 800 / 160001 by norm_num)]
    norm_num [EPSILON]
  have heval : roll_pitch_controller ![1, 0] ![Real.arccos (800 / 160001), 0, 0]
      (-(1 / 2)) 0 = -(159999 / 100) := by
    simp only [roll_pitch_controller]
    rw [if_pos h1, if_pos h2]
    simp only [Matrix.cons_val_zero, Matrix.cons_val_one, Matrix.head_cons, Matrix.cons_val_two,
      Matrix.tail_cons, euler2RM_00, euler2RM_02, euler2RM_10, euler2RM_12, euler2RM_22,
      Real.cos_zero, Real.sin_zero, hcos, hsin]
    norm_num [clip, max_def, min_def, DRONE_MASS_KG, MAX_TILT, PDController.pcontrol,
      PDController.control, roll_controller_, pitch_controller_, PController]
  refine ⟨⟨![1, 0], ![Real.arccos (800 / 160001), 0, 0], -(1 / 2), h1, h2, ?_⟩,
    roll_pitch_output_le⟩
  rw [heval, abs_of_neg (show (-(159999 / 100) : ℝ) < 0 by norm_num)]
  norm_num

end
